import Mathlib

/-!
Verification of the VLAN group-broadcast relay server
(`src/sence/vlan.py`, class `VLANServer`).

The server's shared state is two in-memory maps:
  * `clients : Dict[str, socket]`   -- the Connection Registry
  * `vlans   : Dict[str, Set[str]]` -- the Membership Directory
We embed these as association lists (Python dicts have unique keys when
built through item assignment and deletion, which is all the source uses)
and membership sets as duplicate-free lists.  Socket handles are opaque
and modeled as naturals.  Socket operations performed by an operation are
recorded in an explicit event trace; a `send` that raises is modeled by a
per-connection failure oracle, matching the `try/except` in
`broadcast_to_vlan` which logs the failure and continues.
-/

abbrev ClientID := String
abbrev VLANID := String
abbrev Conn := Nat

/-- A decoded inbound payload, as seen after `recv(...).decode()` and
`json.loads`: `reg` is a JSON object carrying both `client_id` and
`vlan_id` fields; `msg` is any other successfully decoded JSON document
(opaque to the relay); `bad` is data on which `json.loads` raises. -/
inductive Payload where
  | reg (cid : ClientID) (vid : VLANID)
  | msg (m : String)
  | bad
deriving Repr, DecidableEq

/-- Result of one blocking `recv` call on a client socket: `data p` is a
nonempty read decoding as `p`, `closed` is a zero-length read (peer
closed), `ioError` is `recv` (or `.decode()`) raising an exception. -/
inductive ReadResult where
  | data (p : Payload)
  | closed
  | ioError
deriving Repr, DecidableEq

/-- Socket operations an operation performs, in order: a delivery attempt
that succeeds (`sendOk`), a delivery attempt whose `send` raised and was
caught and logged (`sendFail`), the bookkeeping call
`unregister_client` (`unreg`), and `socket.close()` (`close`). -/
inductive Ev where
  | sendOk (cid : ClientID) (conn : Conn) (payload : Payload)
  | sendFail (cid : ClientID) (conn : Conn) (payload : Payload)
  | unreg (cid : ClientID) (vid : VLANID)
  | close (conn : Conn)
deriving Repr, DecidableEq

/-- Association-list update, the embedding of Python `d[k] = v`:
replaces the binding of `k` if present, else appends it. -/
def mapInsert (k : String) (v : α) : List (String × α) → List (String × α)
  | [] => [(k, v)]
  | (k', v') :: rest =>
      if k' = k then (k, v) :: rest else (k', v') :: mapInsert k v rest

/-- Association-list removal, the embedding of Python `del d[k]`. -/
def mapErase (k : String) : List (String × α) → List (String × α)
  | [] => []
  | (k', v') :: rest =>
      if k' = k then rest else (k', v') :: mapErase k rest

/-- Association-list lookup, the embedding of Python `d[k]` /
`k in d`. -/
def mapLookup (k : String) : List (String × α) → Option α
  | [] => none
  | (k', v') :: rest => if k' = k then some v' else mapLookup k rest

/-- Python `set.add`. -/
def setAdd (c : ClientID) (s : List ClientID) : List ClientID :=
  if c ∈ s then s else c :: s

/-- Python `set.remove` (on a duplicate-free list, removing every
occurrence equals removing the one occurrence). -/
def setRemove (c : ClientID) (s : List ClientID) : List ClientID :=
  s.filter (fun x => x != c)

/-- The shared state of `VLANServer`: the Connection Registry
(`self.clients`) and the Membership Directory (`self.vlans`). -/
structure VLANServer where
  clients : List (ClientID × Conn)
  vlans : List (VLANID × List ClientID)
deriving Repr, DecidableEq

/-- `VLANServer.register_client`:
```
self.clients[client_id] = client_socket
if vlan_id not in self.vlans:
    self.vlans[vlan_id] = set()
self.vlans[vlan_id].add(client_id)
```
-/
def register_client (s : VLANServer) (client_id : ClientID)
    (vlan_id : VLANID) (client_socket : Conn) : VLANServer :=
  { clients := mapInsert client_id client_socket s.clients
    vlans :=
      match mapLookup vlan_id s.vlans with
      | none => mapInsert vlan_id (setAdd client_id []) s.vlans
      | some members => mapInsert vlan_id (setAdd client_id members) s.vlans }

/-- `register_client` together with its socket-operation trace: the
source body performs only the two map updates and a `logger.info` call,
no send and no close, so the trace is empty. -/
def register_client_ops (s : VLANServer) (client_id : ClientID)
    (vlan_id : VLANID) (client_socket : Conn) : VLANServer × List Ev :=
  (register_client s client_id vlan_id client_socket, [])

/-- `VLANServer.unregister_client`:
```
if client_id in self.clients:
    del self.clients[client_id]
if vlan_id in self.vlans and client_id in self.vlans[vlan_id]:
    self.vlans[vlan_id].remove(client_id)
```
-/
def unregister_client (s : VLANServer) (client_id : ClientID)
    (vlan_id : VLANID) : VLANServer :=
  { clients :=
      if (mapLookup client_id s.clients).isSome then
        mapErase client_id s.clients
      else s.clients
    vlans :=
      match mapLookup vlan_id s.vlans with
      | none => s.vlans
      | some members =>
          if client_id ∈ members then
            mapInsert vlan_id (setRemove client_id members) s.vlans
          else s.vlans }

/-- The per-recipient loop body of `VLANServer.broadcast_to_vlan`:
```
for client_id in self.vlans[vlan_id]:
    if client_id != sender_id and client_id in self.clients:
        try:
            self.clients[client_id].send(json.dumps(message).encode())
        except Exception as e:
            self.logger.error(...)
```
`sendFails conn = true` models `send` raising on that connection; the
exception is caught, logged (`sendFail` event) and the loop continues. -/
def broadcastSends (clients : List (ClientID × Conn))
    (sender_id : ClientID) (sendFails : Conn → Bool) (payload : Payload) :
    List ClientID → List Ev
  | [] => []
  | cid :: rest =>
      if cid ≠ sender_id then
        match mapLookup cid clients with
        | some conn =>
            (if sendFails conn then Ev.sendFail cid conn payload
             else Ev.sendOk cid conn payload) ::
              broadcastSends clients sender_id sendFails payload rest
        | none => broadcastSends clients sender_id sendFails payload rest
      else broadcastSends clients sender_id sendFails payload rest

/-- `VLANServer.broadcast_to_vlan`: returns the (unchanged) state and the
trace of delivery attempts.
```
if vlan_id not in self.vlans:
    return
for client_id in self.vlans[vlan_id]: ...
```
-/
def broadcast_to_vlan (s : VLANServer) (vlan_id : VLANID)
    (message : Payload) (sender_id : ClientID) (sendFails : Conn → Bool) :
    VLANServer × List Ev :=
  match mapLookup vlan_id s.vlans with
  | none => (s, [])
  | some members =>
      (s, broadcastSends s.clients sender_id sendFails message members)

/-- Why the read loop of `handle_client` exited: zero-length read
(`if not data: break`), `json.JSONDecodeError` (inner `except ... break`),
or any other exception from `recv`/`.decode()` (caught by the outer
`except Exception`). -/
inductive LoopExit where
  | peerClosed
  | decodeFail
  | ioErr
deriving Repr, DecidableEq

/-- How `handle_client` ended: `finished` means the `finally` block ran
to completion (unregister, then `close`); `crashed` means the `finally`
block raised `UnboundLocalError` because `client_id`/`vlan_id` were never
bound (registration payload malformed or absent), so `close` never ran
and the exception escaped the handler; `blocked` means the read script
was exhausted while the handler was still blocked in `recv`. -/
inductive HandlerOutcome where
  | finished
  | crashed
  | blocked
deriving Repr, DecidableEq

/-- The read loop of `VLANServer.handle_client` after a successful
registration:
```
while True:
    try:
        data = client_socket.recv(1024).decode()
        if not data:
            break
        message = json.loads(data)
        self.broadcast_to_vlan(vlan_id, message, client_id)
    except json.JSONDecodeError:
        self.logger.error(...)
        break
```
An exception from `recv` propagates to the outer `except Exception`
(exit `ioErr`); both other exits `break`.  Returns the state, the events
of all broadcasts, and the exit reason (`none` when the script ran out
while the loop was still reading). -/
def clientLoop (s : VLANServer) (client_id : ClientID) (vlan_id : VLANID)
    (sendFails : Conn → Bool) :
    List ReadResult → VLANServer × List Ev × Option LoopExit
  | [] => (s, [], none)
  | ReadResult.closed :: _ => (s, [], some LoopExit.peerClosed)
  | ReadResult.ioError :: _ => (s, [], some LoopExit.ioErr)
  | ReadResult.data Payload.bad :: _ => (s, [], some LoopExit.decodeFail)
  | ReadResult.data (Payload.msg m) :: rest =>
      let b := broadcast_to_vlan s vlan_id (Payload.msg m) client_id sendFails
      let r := clientLoop b.1 client_id vlan_id sendFails rest
      (r.1, b.2 ++ r.2.1, r.2.2)
  | ReadResult.data (Payload.reg c v) :: rest =>
      let b := broadcast_to_vlan s vlan_id (Payload.reg c v) client_id sendFails
      let r := clientLoop b.1 client_id vlan_id sendFails rest
      (r.1, b.2 ++ r.2.1, r.2.2)

/-- `VLANServer.handle_client` for one connection, driven by the script
of its `recv` results.  If the first payload is a well-formed
registration object, the client is registered and the read loop runs;
on loop exit the `finally` block calls
`unregister_client(client_id, vlan_id)` and then `client_socket.close()`.
If the first payload is malformed or absent (`json.loads` raises, the
read is zero-length, `recv` raises, or the decoded object lacks the
fields), the exception is caught and logged by `except Exception`, but
the `finally` block then evaluates the never-assigned local `client_id`
and raises `UnboundLocalError` before reaching
`self.unregister_client(...)` and `client_socket.close()`: no map is
touched, no close happens, and the handler terminates by exception
(`crashed`). -/
def handle_client (s : VLANServer) (client_socket : Conn)
    (first : ReadResult) (rest : List ReadResult)
    (sendFails : Conn → Bool) : VLANServer × List Ev × HandlerOutcome :=
  match first with
  | ReadResult.data (Payload.reg client_id vlan_id) =>
      let s1 := register_client s client_id vlan_id client_socket
      let r := clientLoop s1 client_id vlan_id sendFails rest
      match r.2.2 with
      | none => (r.1, r.2.1, HandlerOutcome.blocked)
      | some _ =>
          (unregister_client r.1 client_id vlan_id,
           r.2.1 ++ [Ev.unreg client_id vlan_id, Ev.close client_socket],
           HandlerOutcome.finished)
  | _ => (s, [], HandlerOutcome.crashed)

/-- `VLANServer.start`, bind phase:
```
try:
    self.server_socket.bind((self.host, self.port)); listen
except OSError as e:
    self.port += 1
    self.server_socket.bind((self.host, self.port)); listen
```
`bindFails p = true` models the bind/listen attempt on port `p` raising
`OSError`.  The second attempt is outside any handler, so its failure
propagates and aborts startup (`Except.error` carries the port whose
bind raised). -/
def start (port : Nat) (bindFails : Nat → Bool) : Except Nat Nat :=
  if bindFails port = false then Except.ok port
  else if bindFails (port + 1) = false then Except.ok (port + 1)
  else Except.error (port + 1)

/-- One Registry/Directory operation, for reasoning about operation
sequences. -/
inductive Op where
  | reg (c : ClientID) (v : VLANID) (conn : Conn)
  | unreg (c : ClientID) (v : VLANID)
deriving Repr, DecidableEq

def applyOp (s : VLANServer) : Op → VLANServer
  | Op.reg c v conn => register_client s c v conn
  | Op.unreg c v => unregister_client s c v

/-- The state both maps start from (`self.clients = {}`,
`self.vlans = {}`) with a sequence of operations applied. -/
def runOps (ops : List Op) : VLANServer :=
  ops.foldl applyOp ⟨[], []⟩

/-- No dangling membership: every ClientID in any Directory group set has
a Registry entry. -/
def NoDangling (s : VLANServer) : Prop :=
  ∀ p ∈ s.vlans, ∀ c ∈ p.2, (mapLookup c s.clients).isSome = true

instance (s : VLANServer) : Decidable (NoDangling s) := by
  unfold NoDangling; infer_instance

/-- Keys of an association list are pairwise distinct.  Python dicts
have this by construction; the empty starting state has it and both
operations preserve it. -/
def NodupKeys (m : List (String × α)) : Prop :=
  (m.map Prod.fst).Nodup

/-- The combined inductive invariant for operation sequences: distinct
Directory keys plus no dangling membership. -/
def GoodState (s : VLANServer) : Prop :=
  NodupKeys s.vlans ∧ NoDangling s

/-- Precondition on an operation in a sequence: `register_client` is
unrestricted; `unregister_client(c, v)` is invoked only in states where
`c` is not a member of any group other than `v` — which is how the
Connection Handler uses it, since a handler unregisters with the same
`vlan_id` it registered. -/
def OkOp (s : VLANServer) : Op → Prop
  | Op.reg _ _ _ => True
  | Op.unreg c v => ∀ p ∈ s.vlans, p.1 ≠ v → c ∉ p.2

instance (s : VLANServer) (op : Op) : Decidable (OkOp s op) := by
  cases op with
  | reg c v conn => exact isTrue trivial
  | unreg c v =>
      unfold OkOp
      infer_instance

/-- A sequence of operations is legal from `s` when each operation
satisfies its precondition in the state where it runs. -/
def Legal : VLANServer → List Op → Prop
  | _, [] => True
  | s, op :: rest => OkOp s op ∧ Legal (applyOp s op) rest

instance decLegal : (s : VLANServer) → (ops : List Op) →
    Decidable (Legal s ops)
  | _, [] => isTrue trivial
  | s, op :: rest =>
      haveI := decLegal (applyOp s op) rest
      inferInstanceAs (Decidable (OkOp s op ∧ Legal (applyOp s op) rest))

/-- The client/conn pair an event attempts delivery to, if it is a
delivery attempt. -/
def sentTo : Ev → Option (ClientID × Conn)
  | Ev.sendOk cid conn _ => some (cid, conn)
  | Ev.sendFail cid conn _ => some (cid, conn)
  | _ => none

/-- `attempted evs c conn`: the trace contains a delivery attempt
(successful or failed) to client `c` over connection `conn`. -/
def attempted (evs : List Ev) (c : ClientID) (conn : Conn) : Prop :=
  (c, conn) ∈ evs.filterMap sentTo

instance (evs : List Ev) (c : ClientID) (conn : Conn) :
    Decidable (attempted evs c conn) := by
  unfold attempted; infer_instance

/-! ### Association-list and set lemmas -/

theorem mapLookup_mapInsert_self (k : String) (v : α)
    (m : List (String × α)) : mapLookup k (mapInsert k v m) = some v := by
  induction m with
  | nil => simp [mapInsert, mapLookup]
  | cons p rest ih =>
      obtain ⟨k', v'⟩ := p
      by_cases h : k' = k
      · subst h
        simp [mapInsert, mapLookup]
      · simp [mapInsert, mapLookup, h, ih]

theorem mapLookup_mapInsert_ne (k k' : String) (v : α)
    (m : List (String × α)) (h : k' ≠ k) :
    mapLookup k' (mapInsert k v m) = mapLookup k' m := by
  induction m with
  | nil => simp [mapInsert, mapLookup, Ne.symm h]
  | cons p rest ih =>
      obtain ⟨ka, va⟩ := p
      by_cases hk : ka = k
      · subst hk
        simp [mapInsert, mapLookup, Ne.symm h]
      · simp [mapInsert, mapLookup, hk, ih]

theorem mapLookup_mapErase_ne (k k' : String)
    (m : List (String × α)) (h : k' ≠ k) :
    mapLookup k' (mapErase k m) = mapLookup k' m := by
  induction m with
  | nil => simp [mapErase]
  | cons p rest ih =>
      obtain ⟨ka, va⟩ := p
      by_cases hk : ka = k
      · subst hk
        simp [mapErase, mapLookup, Ne.symm h]
      · simp [mapErase, mapLookup, hk, ih]

theorem mem_setAdd (x c : ClientID) (s : List ClientID) :
    x ∈ setAdd c s ↔ x = c ∨ x ∈ s := by
  unfold setAdd
  by_cases h : c ∈ s
  · simp only [if_pos h]
    constructor
    · exact Or.inr
    · rintro (rfl | hx)
      · exact h
      · exact hx
  · simp [if_neg h]

theorem mem_setRemove (x c : ClientID) (s : List ClientID) :
    x ∈ setRemove c s ↔ x ∈ s ∧ x ≠ c := by
  unfold setRemove
  simp [List.mem_filter]

theorem mapLookup_none_not_mem (k : String) (m : List (String × α))
    (h : mapLookup k m = none) : ∀ v, (k, v) ∉ m := by
  induction m with
  | nil => simp
  | cons p rest ih =>
      obtain ⟨ka, va⟩ := p
      intro v hv
      by_cases hk : ka = k
      · simp [mapLookup, hk] at h
      · simp only [mapLookup, if_neg hk] at h
        rcases List.mem_cons.mp hv with heq | hmem
        · exact hk (congrArg Prod.fst heq).symm
        · exact ih h v hmem

theorem mapLookup_some_mem (k : String) (v : α) (m : List (String × α))
    (h : mapLookup k m = some v) : (k, v) ∈ m := by
  induction m with
  | nil => simp [mapLookup] at h
  | cons p rest ih =>
      obtain ⟨ka, va⟩ := p
      by_cases hk : ka = k
      · subst hk
        simp [mapLookup] at h
        subst h
        exact List.mem_cons_self _ _
      · simp only [mapLookup, if_neg hk] at h
        exact List.mem_cons_of_mem _ (ih h)

theorem keys_mapInsert_sub (k x : String) (v : α) (m : List (String × α))
    (hx : x ∈ (mapInsert k v m).map Prod.fst) :
    x = k ∨ x ∈ m.map Prod.fst := by
  induction m with
  | nil =>
      simp [mapInsert] at hx
      exact Or.inl hx
  | cons p rest ih =>
      obtain ⟨ka, va⟩ := p
      by_cases hk : ka = k
      · subst hk
        have e : mapInsert ka v ((ka, va) :: rest) = (ka, v) :: rest := by
          simp [mapInsert]
        rw [e] at hx
        simp only [List.map_cons, List.mem_cons] at hx ⊢
        tauto
      · have e : mapInsert k v ((ka, va) :: rest)
            = (ka, va) :: mapInsert k v rest := by
          simp [mapInsert, hk]
        rw [e] at hx
        simp only [List.map_cons, List.mem_cons] at hx ⊢
        rcases hx with rfl | hx
        · exact Or.inr (Or.inl rfl)
        · rcases ih hx with h1 | h1
          · exact Or.inl h1
          · exact Or.inr (Or.inr h1)

theorem keys_mapErase_sub (k x : String) (m : List (String × α))
    (hx : x ∈ (mapErase k m).map Prod.fst) : x ∈ m.map Prod.fst := by
  induction m with
  | nil => simp [mapErase] at hx
  | cons p rest ih =>
      obtain ⟨ka, va⟩ := p
      by_cases hk : ka = k
      · subst hk
        have e : mapErase ka ((ka, va) :: rest) = rest := by
          simp [mapErase]
        rw [e] at hx
        simp only [List.map_cons, List.mem_cons]
        exact Or.inr hx
      · have e : mapErase k ((ka, va) :: rest)
            = (ka, va) :: mapErase k rest := by
          simp [mapErase, hk]
        rw [e] at hx
        simp only [List.map_cons, List.mem_cons] at hx ⊢
        rcases hx with rfl | hx
        · exact Or.inl rfl
        · exact Or.inr (ih hx)

theorem nodupKeys_mapInsert (k : String) (v : α) (m : List (String × α))
    (h : NodupKeys m) : NodupKeys (mapInsert k v m) := by
  induction m with
  | nil => simp [NodupKeys, mapInsert]
  | cons p rest ih =>
      obtain ⟨ka, va⟩ := p
      unfold NodupKeys at h ⊢
      simp only [List.map_cons, List.nodup_cons] at h
      by_cases hk : ka = k
      · subst hk
        simpa [mapInsert] using h
      · simp only [mapInsert, if_neg hk, List.map_cons, List.nodup_cons]
        refine ⟨?_, ih h.2⟩
        intro hmem
        rcases keys_mapInsert_sub k ka v rest hmem with h1 | h1
        · exact hk h1
        · exact h.1 h1

theorem nodupKeys_mapErase (k : String) (m : List (String × α))
    (h : NodupKeys m) : NodupKeys (mapErase k m) := by
  induction m with
  | nil => simp [NodupKeys, mapErase]
  | cons p rest ih =>
      obtain ⟨ka, va⟩ := p
      unfold NodupKeys at h ⊢
      simp only [List.map_cons, List.nodup_cons] at h
      by_cases hk : ka = k
      · subst hk
        simpa [mapErase] using h.2
      · simp only [mapErase, if_neg hk, List.map_cons, List.nodup_cons]
        refine ⟨?_, ih h.2⟩
        intro hmem
        exact h.1 (keys_mapErase_sub k ka rest hmem)

theorem mem_mapInsert_of_nodup (k : String) (v : α)
    (m : List (String × α)) (p : String × α) (hnd : NodupKeys m)
    (h : p ∈ mapInsert k v m) : p = (k, v) ∨ (p ∈ m ∧ p.1 ≠ k) := by
  induction m with
  | nil =>
      simp [mapInsert] at h
      exact Or.inl h
  | cons q rest ih =>
      obtain ⟨ka, va⟩ := q
      unfold NodupKeys at hnd
      simp only [List.map_cons, List.nodup_cons] at hnd
      by_cases hk : ka = k
      · subst hk
        simp only [mapInsert, if_pos] at h
        rcases List.mem_cons.mp h with rfl | hp
        · exact Or.inl rfl
        · right
          refine ⟨List.mem_cons_of_mem _ hp, ?_⟩
          intro hpk
          exact hnd.1 (hpk ▸ List.mem_map_of_mem Prod.fst hp)
      · simp only [mapInsert, if_neg hk, List.mem_cons] at h
        rcases h with rfl | hmem
        · exact Or.inr ⟨List.mem_cons_self _ _, hk⟩
        · rcases ih hnd.2 hmem with h1 | h1
          · exact Or.inl h1
          · exact Or.inr ⟨List.mem_cons_of_mem _ h1.1, h1.2⟩

/-! ### Broadcast dispatch lemmas -/

theorem broadcastSends_sender_head (clients : List (ClientID × Conn))
    (sender : ClientID) (f : Conn → Bool) (p : Payload)
    (rest : List ClientID) :
    broadcastSends clients sender f p (sender :: rest)
      = broadcastSends clients sender f p rest := by
  simp [broadcastSends]

theorem broadcastSends_absent_head (clients : List (ClientID × Conn))
    (sender cid : ClientID) (f : Conn → Bool) (p : Payload)
    (rest : List ClientID) (h : cid ≠ sender)
    (h2 : mapLookup cid clients = none) :
    broadcastSends clients sender f p (cid :: rest)
      = broadcastSends clients sender f p rest := by
  simp [broadcastSends, h, h2]

theorem broadcastSends_present_head (clients : List (ClientID × Conn))
    (sender cid : ClientID) (conn : Conn) (f : Conn → Bool) (p : Payload)
    (rest : List ClientID) (h : cid ≠ sender)
    (h2 : mapLookup cid clients = some conn) :
    broadcastSends clients sender f p (cid :: rest)
      = (if f conn then Ev.sendFail cid conn p else Ev.sendOk cid conn p)
          :: broadcastSends clients sender f p rest := by
  simp [broadcastSends, h, h2]

theorem sentTo_ite (cid : ClientID) (conn : Conn) (p : Payload) (b : Bool) :
    sentTo (if b then Ev.sendFail cid conn p else Ev.sendOk cid conn p)
      = some (cid, conn) := by
  cases b <;> simp [sentTo]

/-- Characterization of delivery attempts: the per-recipient loop
attempts delivery to `(c, conn)` iff `c` is a listed member other than
the sender and the Registry maps `c` to `conn`. -/
theorem attempted_broadcastSends (clients : List (ClientID × Conn))
    (sender : ClientID) (f : Conn → Bool) (p : Payload)
    (members : List ClientID) (c : ClientID) (conn : Conn) :
    attempted (broadcastSends clients sender f p members) c conn ↔
      c ∈ members ∧ c ≠ sender ∧ mapLookup c clients = some conn := by
  induction members with
  | nil => simp [attempted, broadcastSends]
  | cons cid rest ih =>
      by_cases hs : cid = sender
      · subst hs
        rw [attempted, broadcastSends_sender_head]
        rw [attempted] at ih
        rw [ih]
        constructor
        · rintro ⟨h1, h2, h3⟩
          exact ⟨List.mem_cons_of_mem _ h1, h2, h3⟩
        · rintro ⟨h1, h2, h3⟩
          rcases List.mem_cons.mp h1 with rfl | h1
          · exact absurd rfl h2
          · exact ⟨h1, h2, h3⟩
      · cases h2 : mapLookup cid clients with
        | none =>
            rw [attempted, broadcastSends_absent_head _ _ _ _ _ _ hs h2]
            rw [attempted] at ih
            rw [ih]
            constructor
            · rintro ⟨h1, h3, h4⟩
              exact ⟨List.mem_cons_of_mem _ h1, h3, h4⟩
            · rintro ⟨h1, h3, h4⟩
              rcases List.mem_cons.mp h1 with rfl | h1
              · rw [h2] at h4
                cases h4
              · exact ⟨h1, h3, h4⟩
        | some k =>
            rw [attempted, broadcastSends_present_head _ _ _ _ _ _ _ hs h2,
              List.filterMap_cons_some (sentTo_ite cid k p (f k)),
              List.mem_cons]
            rw [attempted] at ih
            rw [ih]
            constructor
            · rintro (he | ⟨h1, h3, h4⟩)
              · have hc : c = cid ∧ conn = k := by
                  constructor
                  · exact congrArg Prod.fst he
                  · exact congrArg Prod.snd he
                rcases hc with ⟨rfl, rfl⟩
                exact ⟨List.mem_cons_self _ _, hs, h2⟩
              · exact ⟨List.mem_cons_of_mem _ h1, h3, h4⟩
            · rintro ⟨h1, h3, h4⟩
              rcases List.mem_cons.mp h1 with rfl | h1
              · left
                rw [h2] at h4
                cases h4
                rfl
              · exact Or.inr ⟨h1, h3, h4⟩

/-- Every event the per-recipient loop emits is a delivery attempt
(carrying the broadcast payload); in particular it emits no `close` and
no `unreg`. -/
theorem broadcastSends_events (clients : List (ClientID × Conn))
    (sender : ClientID) (f : Conn → Bool) (p : Payload)
    (members : List ClientID) :
    ∀ e ∈ broadcastSends clients sender f p members,
      ∃ cid conn, e = Ev.sendOk cid conn p ∨ e = Ev.sendFail cid conn p := by
  induction members with
  | nil => simp [broadcastSends]
  | cons cid rest ih =>
      by_cases hs : cid = sender
      · subst hs
        rw [broadcastSends_sender_head]
        exact ih
      · cases h2 : mapLookup cid clients with
        | none =>
            rw [broadcastSends_absent_head _ _ _ _ _ _ hs h2]
            exact ih
        | some k =>
            rw [broadcastSends_present_head _ _ _ _ _ _ _ hs h2]
            intro e he
            rcases List.mem_cons.mp he with rfl | he
            · refine ⟨cid, k, ?_⟩
              cases hf : f k <;> simp
            · exact ih e he

/-- An eligible recipient receives a delivery attempt whose success is
exactly the send oracle's verdict on its connection, whatever the oracle
says about every other connection. -/
theorem broadcastSends_attempt_mem (clients : List (ClientID × Conn))
    (sender : ClientID) (f : Conn → Bool) (p : Payload)
    (members : List ClientID) (c : ClientID) (conn : Conn)
    (hc : c ∈ members) (hne : c ≠ sender)
    (hlk : mapLookup c clients = some conn) :
    (if f conn then Ev.sendFail c conn p else Ev.sendOk c conn p)
      ∈ broadcastSends clients sender f p members := by
  induction members with
  | nil => cases hc
  | cons cid rest ih =>
      rcases List.mem_cons.mp hc with rfl | hmem
      · rw [broadcastSends_present_head _ _ _ _ _ _ _ hne hlk]
        exact List.mem_cons_self _ _
      · by_cases hs : cid = sender
        · subst hs
          rw [broadcastSends_sender_head]
          exact ih hmem
        · cases h2 : mapLookup cid clients with
          | none =>
              rw [broadcastSends_absent_head _ _ _ _ _ _ hs h2]
              exact ih hmem
          | some k =>
              rw [broadcastSends_present_head _ _ _ _ _ _ _ hs h2]
              exact List.mem_cons_of_mem _ (ih hmem)

theorem broadcast_to_vlan_none (s : VLANServer) (vlan_id : VLANID)
    (message : Payload) (sender_id : ClientID) (sendFails : Conn → Bool)
    (hm : mapLookup vlan_id s.vlans = none) :
    broadcast_to_vlan s vlan_id message sender_id sendFails = (s, []) := by
  simp [broadcast_to_vlan, hm]

theorem broadcast_to_vlan_some (s : VLANServer) (vlan_id : VLANID)
    (message : Payload) (sender_id : ClientID) (sendFails : Conn → Bool)
    (members : List ClientID)
    (hm : mapLookup vlan_id s.vlans = some members) :
    broadcast_to_vlan s vlan_id message sender_id sendFails
      = (s, broadcastSends s.clients sender_id sendFails message members) := by
  simp [broadcast_to_vlan, hm]

/-- C1: for every state of the Directory and Registry,
`broadcast_to_vlan(G, payload, S)` attempts delivery exactly to the
members of group `G` other than `S` that are present (have a Registry
entry) at dispatch time — so in particular to no client whose group set
does not contain it — and if `G` has no Directory entry the call returns
`(s, [])`: no delivery, no state change, no error. -/
theorem C1_broadcast_exact_recipients (s : VLANServer) (vlan_id : VLANID)
    (message : Payload) (sender_id : ClientID) (sendFails : Conn → Bool) :
    (mapLookup vlan_id s.vlans = none →
      broadcast_to_vlan s vlan_id message sender_id sendFails = (s, [])) ∧
    (∀ members, mapLookup vlan_id s.vlans = some members →
      (broadcast_to_vlan s vlan_id message sender_id sendFails).1 = s ∧
      (∀ c conn,
        attempted
            (broadcast_to_vlan s vlan_id message sender_id sendFails).2
            c conn ↔
          (c ∈ members ∧ c ≠ sender_id ∧
            mapLookup c s.clients = some conn))) := by
  constructor
  · intro h
    exact broadcast_to_vlan_none s vlan_id message sender_id sendFails h
  · intro members h
    rw [broadcast_to_vlan_some s vlan_id message sender_id sendFails
      members h]
    exact ⟨rfl, fun c conn =>
      attempted_broadcastSends s.clients sender_id sendFails message
        members c conn⟩

theorem C1_broadcast_exact_recipients_witness :
    attempted (broadcast_to_vlan
        ⟨[("A", 0), ("B", 1), ("C", 2)], [("g", ["A", "B"]), ("g2", ["C"])]⟩
        "g" (Payload.msg "hi") "A" (fun _ => false)).2 "B" 1
    ∧ ¬ attempted (broadcast_to_vlan
        ⟨[("A", 0), ("B", 1), ("C", 2)], [("g", ["A", "B"]), ("g2", ["C"])]⟩
        "g" (Payload.msg "hi") "A" (fun _ => false)).2 "C" 2 := by
  have h := (C1_broadcast_exact_recipients
      ⟨[("A", 0), ("B", 1), ("C", 2)], [("g", ["A", "B"]), ("g2", ["C"])]⟩
      "g" (Payload.msg "hi") "A" (fun _ => false)).2 ["A", "B"] (by decide)
  constructor
  · exact (h.2 "B" 1).mpr ⟨by decide, by decide, by decide⟩
  · intro hc
    exact absurd ((h.2 "C" 2).mp hc).1 (by decide)

/-- C10: `broadcast_to_vlan` never modifies the Registry or the
Directory, attempts a write only to ClientIDs with a Registry entry at
dispatch time, and silently skips a dangling membership entry (a member
with no Registry entry) without dereferencing it. -/
theorem C10_broadcast_skips_dangling (s : VLANServer) (vlan_id : VLANID)
    (message : Payload) (sender_id : ClientID) (sendFails : Conn → Bool) :
    (broadcast_to_vlan s vlan_id message sender_id sendFails).1 = s ∧
    (∀ c conn,
      attempted (broadcast_to_vlan s vlan_id message sender_id sendFails).2
          c conn →
        mapLookup c s.clients = some conn) ∧
    (∀ c, mapLookup c s.clients = none →
      ∀ conn,
        ¬ attempted
            (broadcast_to_vlan s vlan_id message sender_id sendFails).2
            c conn) := by
  have hatt : ∀ c conn,
      attempted (broadcast_to_vlan s vlan_id message sender_id sendFails).2
        c conn → mapLookup c s.clients = some conn := by
    intro c conn h
    cases hm : mapLookup vlan_id s.vlans with
    | none =>
        rw [broadcast_to_vlan_none s vlan_id message sender_id sendFails
          hm] at h
        simp [attempted] at h
    | some members =>
        rw [broadcast_to_vlan_some s vlan_id message sender_id sendFails
          members hm] at h
        exact ((attempted_broadcastSends s.clients sender_id sendFails
          message members c conn).mp h).2.2
  refine ⟨?_, hatt, ?_⟩
  · cases hm : mapLookup vlan_id s.vlans with
    | none =>
        rw [broadcast_to_vlan_none s vlan_id message sender_id sendFails hm]
    | some members =>
        rw [broadcast_to_vlan_some s vlan_id message sender_id sendFails
          members hm]
  · intro c hnone conn hc
    have := hatt c conn hc
    rw [hnone] at this
    cases this

theorem C10_broadcast_skips_dangling_witness :
    (broadcast_to_vlan ⟨[("A", 0)], [("g", ["A", "B"])]⟩ "g"
        (Payload.msg "x") "A" (fun _ => false)).1
      = ⟨[("A", 0)], [("g", ["A", "B"])]⟩
    ∧ ¬ attempted (broadcast_to_vlan ⟨[("A", 0)], [("g", ["A", "B"])]⟩ "g"
        (Payload.msg "x") "A" (fun _ => false)).2 "B" 5 :=
  ⟨(C10_broadcast_skips_dangling ⟨[("A", 0)], [("g", ["A", "B"])]⟩ "g"
      (Payload.msg "x") "A" (fun _ => false)).1,
   (C10_broadcast_skips_dangling ⟨[("A", 0)], [("g", ["A", "B"])]⟩ "g"
      (Payload.msg "x") "A" (fun _ => false)).2.2 "B" (by decide) 5⟩

/-- C4: during `broadcast_to_vlan`, a write failure to one recipient's
connection is caught and logged (a `sendFail` event) and does not abort
delivery to the remaining recipients: whatever connections the send
oracle makes fail, every eligible recipient still gets its delivery
attempt; and the broadcast emits no `close` (the sender's connection is
not terminated) and no `unreg`.  The function is total: the exception is
confined to the logged event, nothing propagates out. -/
theorem C4_broadcast_failure_isolated (s : VLANServer) (vlan_id : VLANID)
    (message : Payload) (sender_id : ClientID) (sendFails : Conn → Bool)
    (members : List ClientID) (c : ClientID) (conn : Conn)
    (hm : mapLookup vlan_id s.vlans = some members)
    (hc : c ∈ members) (hne : c ≠ sender_id)
    (hlk : mapLookup c s.clients = some conn) :
    ((if sendFails conn then Ev.sendFail c conn message
      else Ev.sendOk c conn message)
        ∈ (broadcast_to_vlan s vlan_id message sender_id sendFails).2) ∧
    (∀ conn', Ev.close conn'
        ∉ (broadcast_to_vlan s vlan_id message sender_id sendFails).2) ∧
    (∀ cid vid, Ev.unreg cid vid
        ∉ (broadcast_to_vlan s vlan_id message sender_id sendFails).2) := by
  rw [broadcast_to_vlan_some s vlan_id message sender_id sendFails
    members hm]
  refine ⟨broadcastSends_attempt_mem s.clients sender_id sendFails message
    members c conn hc hne hlk, ?_, ?_⟩
  · intro conn' hmem
    rcases broadcastSends_events s.clients sender_id sendFails message
      members _ hmem with ⟨a, b, h | h⟩ <;> cases h
  · intro cid vid hmem
    rcases broadcastSends_events s.clients sender_id sendFails message
      members _ hmem with ⟨a, b, h | h⟩ <;> cases h

theorem C4_broadcast_failure_isolated_witness :
    Ev.sendOk "C" 2 (Payload.msg "hi")
      ∈ (broadcast_to_vlan
          ⟨[("A", 0), ("B", 1), ("C", 2)], [("g", ["B", "C"])]⟩
          "g" (Payload.msg "hi") "A" (fun k => k == 1)).2 := by
  have h := (C4_broadcast_failure_isolated
      ⟨[("A", 0), ("B", 1), ("C", 2)], [("g", ["B", "C"])]⟩
      "g" (Payload.msg "hi") "A" (fun k => k == 1) ["B", "C"] "C" 2
      (by decide) (by decide) (by decide) (by decide)).1
  simpa using h

theorem mapLookup_isSome_mapInsert (k k' : String) (v : α)
    (m : List (String × α)) (h : (mapLookup k' m).isSome = true) :
    (mapLookup k' (mapInsert k v m)).isSome = true := by
  by_cases hk : k' = k
  · subst hk
    rw [mapLookup_mapInsert_self]
    rfl
  · rw [mapLookup_mapInsert_ne k k' v m hk]
    exact h

/-- C3 counterexample: in the reachable state where the Registry is
empty but `"A"` still sits (dangling) in group `"g"`'s set — produced
for instance by `register("A","g",0)` then `unregister("A","g2")` —
calling `unregister_client("A","g")` on the unregistered `"A"` is NOT a
no-op: it removes `"A"` from the group's membership set, contradicting
the claim that no group's membership set is altered. -/
theorem C3_unregister_absent_counterexample :
    mapLookup "A" (VLANServer.mk [] [("g", ["A"])]).clients = none
    ∧ unregister_client ⟨[], [("g", ["A"])]⟩ "A" "g" ≠ ⟨[], [("g", ["A"])]⟩
    ∧ (unregister_client ⟨[], [("g", ["A"])]⟩ "A" "g").vlans
        = [("g", [])] := by
  decide

/-- C3 (amended): calling `unregister_client(client_id, vlan_id)` when
`client_id` is not currently registered raises no error and leaves the
Registry unchanged — also in dangling states where `client_id` still
sits in some group's set; and provided `client_id` is additionally
absent from `vlan_id`'s membership set — which is the case in every
dangling-free state — it is a complete no-op, altering no group's
membership set either. -/
theorem C3_unregister_absent_noop (s : VLANServer) (client_id : ClientID)
    (vlan_id : VLANID)
    (h1 : mapLookup client_id s.clients = none) :
    (unregister_client s client_id vlan_id).clients = s.clients
    ∧ ((∀ members, mapLookup vlan_id s.vlans = some members →
          client_id ∉ members) →
        unregister_client s client_id vlan_id = s) := by
  constructor
  · show (if (mapLookup client_id s.clients).isSome = true then
        mapErase client_id s.clients
      else s.clients) = s.clients
    rw [h1]
    rfl
  · intro h2
    unfold unregister_client
    cases hm : mapLookup vlan_id s.vlans with
    | none => simp [h1, hm]
    | some members => simp [h1, hm, h2 members hm]

theorem C3_unregister_absent_noop_witness :
    (unregister_client ⟨[], [("g", ["A"])]⟩ "A" "g").clients = []
    ∧ unregister_client ⟨[("B", 1)], [("g", ["B"])]⟩ "A" "g"
        = ⟨[("B", 1)], [("g", ["B"])]⟩ := by
  constructor
  · exact (C3_unregister_absent_noop ⟨[], [("g", ["A"])]⟩ "A" "g"
      (by decide)).1
  · refine (C3_unregister_absent_noop ⟨[("B", 1)], [("g", ["B"])]⟩ "A" "g"
      (by decide)).2 ?_
    intro members hm
    have he : mapLookup "g" ([("g", ["B"])] :
        List (VLANID × List ClientID)) = some ["B"] := by decide
    rw [he] at hm
    obtain rfl := Option.some.inj hm
    decide

/-- C7: registering a `client_id` that already has a Registry entry
bound to a different connection replaces the entry with the most recent
connection (last-write-wins), and the operation performs no socket
operation at all — in particular the prior connection is not closed. -/
theorem C7_register_last_write_wins (s : VLANServer) (client_id : ClientID)
    (vlan_id : VLANID) (oldConn newConn : Conn)
    (hold : mapLookup client_id s.clients = some oldConn)
    (hne : oldConn ≠ newConn) :
    mapLookup client_id
        (register_client_ops s client_id vlan_id newConn).1.clients
      = some newConn
    ∧ (register_client_ops s client_id vlan_id newConn).2 = []
    ∧ Ev.close oldConn
        ∉ (register_client_ops s client_id vlan_id newConn).2 := by
  refine ⟨?_, rfl, ?_⟩
  · exact mapLookup_mapInsert_self client_id newConn s.clients
  · intro h
    simp [register_client_ops] at h

theorem C7_register_last_write_wins_witness :
    mapLookup "A"
        (register_client_ops ⟨[("A", 0)], [("g", ["A"])]⟩ "A" "g" 1).1.clients
      = some 1
    ∧ (register_client_ops ⟨[("A", 0)], [("g", ["A"])]⟩ "A" "g" 1).2 = []
    ∧ Ev.close 0
        ∉ (register_client_ops ⟨[("A", 0)], [("g", ["A"])]⟩ "A" "g" 1).2 :=
  C7_register_last_write_wins ⟨[("A", 0)], [("g", ["A"])]⟩ "A" "g" 0 1
    (by decide) (by decide)

/-- C8: on startup the server binds the configured port; if that bind
fails it increments the port by exactly one and retries exactly once; a
failure of the second bind is fatal (the error aborts startup).  `start`
never binds any port other than the configured one and its successor. -/
theorem C8_start_bind_retry_once (port : Nat) (bindFails : Nat → Bool) :
    (bindFails port = false → start port bindFails = Except.ok port) ∧
    (bindFails port = true → bindFails (port + 1) = false →
      start port bindFails = Except.ok (port + 1)) ∧
    (bindFails port = true → bindFails (port + 1) = true →
      start port bindFails = Except.error (port + 1)) ∧
    (∀ q, start port bindFails = Except.ok q →
      (q = port ∨ q = port + 1) ∧ bindFails q = false) := by
  refine ⟨?_, ?_, ?_, ?_⟩
  · intro h
    simp [start, h]
  · intro h1 h2
    simp [start, h1, h2]
  · intro h1 h2
    simp [start, h1, h2]
  · intro q hq
    by_cases h1 : bindFails port = false
    · rw [show start port bindFails = Except.ok port from by
        simp [start, h1]] at hq
      have hpq := Except.ok.inj hq
      subst hpq
      exact ⟨Or.inl rfl, h1⟩
    · simp only [Bool.not_eq_false] at h1
      by_cases h2 : bindFails (port + 1) = false
      · rw [show start port bindFails = Except.ok (port + 1) from by
          simp [start, h1, h2]] at hq
        have hpq := Except.ok.inj hq
        subst hpq
        exact ⟨Or.inr rfl, h2⟩
      · simp only [Bool.not_eq_false] at h2
        rw [show start port bindFails = Except.error (port + 1) from by
          simp [start, h1, h2]] at hq
        cases hq

theorem C8_start_bind_retry_once_witness :
    start 5000 (fun p => p == 5000) = Except.ok 5001 :=
  (C8_start_bind_retry_once 5000 (fun p => p == 5000)).2.1
    (by decide) (by decide)

/-- C9: a group's Directory entry is created by the first registration
naming that GroupID, and no `register_client` or `unregister_client`
call ever removes a Directory key: after the last member is
unregistered an (empty) set remains under that GroupID. -/
theorem C9_group_entry_persistent (s : VLANServer) (client_id : ClientID)
    (vlan_id v : VLANID) (conn : Conn) :
    (mapLookup vlan_id
        (register_client s client_id vlan_id conn).vlans).isSome = true
    ∧ ((mapLookup v s.vlans).isSome = true →
        (mapLookup v
          (register_client s client_id vlan_id conn).vlans).isSome = true)
    ∧ ((mapLookup v s.vlans).isSome = true →
        (mapLookup v
          (unregister_client s client_id vlan_id).vlans).isSome = true) := by
  refine ⟨?_, ?_, ?_⟩
  · unfold register_client
    cases hm : mapLookup vlan_id s.vlans with
    | none => simp only [hm, mapLookup_mapInsert_self, Option.isSome_some]
    | some members =>
        simp only [hm, mapLookup_mapInsert_self, Option.isSome_some]
  · intro h
    unfold register_client
    cases hm : mapLookup vlan_id s.vlans with
    | none =>
        simp only [hm]
        exact mapLookup_isSome_mapInsert _ _ _ _ h
    | some members =>
        simp only [hm]
        exact mapLookup_isSome_mapInsert _ _ _ _ h
  · intro h
    unfold unregister_client
    cases hm : mapLookup vlan_id s.vlans with
    | none =>
        simp only [hm]
        exact h
    | some members =>
        simp only [hm]
        by_cases hmem : client_id ∈ members
        · rw [if_pos hmem]
          exact mapLookup_isSome_mapInsert _ _ _ _ h
        · rw [if_neg hmem]
          exact h

theorem C9_group_entry_persistent_witness :
    (mapLookup "g" (register_client ⟨[], []⟩ "A" "g" 0).vlans).isSome = true
    ∧ (mapLookup "g"
        (unregister_client (register_client ⟨[], []⟩ "A" "g" 0)
          "A" "g").vlans).isSome = true := by
  constructor
  · exact (C9_group_entry_persistent ⟨[], []⟩ "A" "g" "g" 0).1
  · exact (C9_group_entry_persistent (register_client ⟨[], []⟩ "A" "g" 0)
      "A" "g" "g" 0).2.2 (by decide)

/-! ### The no-dangling invariant -/

theorem mem_mapInsert_weak (k : String) (v : α) (m : List (String × α))
    (p : String × α) (h : p ∈ mapInsert k v m) : p = (k, v) ∨ p ∈ m := by
  induction m with
  | nil =>
      simp [mapInsert] at h
      exact Or.inl h
  | cons q rest ih =>
      obtain ⟨ka, va⟩ := q
      by_cases hk : ka = k
      · subst hk
        have e : mapInsert ka v ((ka, va) :: rest) = (ka, v) :: rest := by
          simp [mapInsert]
        rw [e] at h
        rcases List.mem_cons.mp h with rfl | hm
        · exact Or.inl rfl
        · exact Or.inr (List.mem_cons_of_mem _ hm)
      · have e : mapInsert k v ((ka, va) :: rest)
            = (ka, va) :: mapInsert k v rest := by
          simp [mapInsert, hk]
        rw [e] at h
        rcases List.mem_cons.mp h with rfl | hm
        · exact Or.inr (List.mem_cons_self _ _)
        · rcases ih hm with h1 | h1
          · exact Or.inl h1
          · exact Or.inr (List.mem_cons_of_mem _ h1)

theorem mem_mapLookup_of_nodup (m : List (String × α)) (k : String)
    (b : α) (hnd : NodupKeys m) (h : (k, b) ∈ m) :
    mapLookup k m = some b := by
  induction m with
  | nil => cases h
  | cons p rest ih =>
      obtain ⟨ka, va⟩ := p
      unfold NodupKeys at hnd
      simp only [List.map_cons, List.nodup_cons] at hnd
      rcases List.mem_cons.mp h with heq | hmem
      · cases heq
        simp [mapLookup]
      · have hk : ka ≠ k := by
          intro he
          subst he
          exact hnd.1 (List.mem_map_of_mem Prod.fst hmem)
        simp only [mapLookup, if_neg hk]
        exact ih hnd.2 hmem

theorem unregister_clients_lookup_ne (s : VLANServer) (c : ClientID)
    (v : VLANID) (x : ClientID) (hx : x ≠ c) :
    mapLookup x (unregister_client s c v).clients
      = mapLookup x s.clients := by
  have hcl : (unregister_client s c v).clients
      = if (mapLookup c s.clients).isSome = true then
          mapErase c s.clients
        else s.clients := rfl
  rw [hcl]
  by_cases hc : (mapLookup c s.clients).isSome = true
  · rw [if_pos hc]
    exact mapLookup_mapErase_ne c x s.clients hx
  · rw [if_neg hc]

theorem goodState_register (s : VLANServer) (c : ClientID) (v : VLANID)
    (conn : Conn) (h : GoodState s) :
    GoodState (register_client s c v conn) := by
  obtain ⟨hnd, hnod⟩ := h
  have hvl : (register_client s c v conn).vlans
      = match mapLookup v s.vlans with
        | none => mapInsert v (setAdd c []) s.vlans
        | some members => mapInsert v (setAdd c members) s.vlans := rfl
  have hcl : (register_client s c v conn).clients
      = mapInsert c conn s.clients := rfl
  constructor
  · show NodupKeys (register_client s c v conn).vlans
    rw [hvl]
    split
    · exact nodupKeys_mapInsert _ _ _ hnd
    · exact nodupKeys_mapInsert _ _ _ hnd
  · intro p hp x hx
    show (mapLookup x (register_client s c v conn).clients).isSome = true
    rw [hcl]
    by_cases hxc : x = c
    · subst hxc
      rw [mapLookup_mapInsert_self]
      rfl
    · rw [mapLookup_mapInsert_ne c x conn s.clients hxc]
      rw [hvl] at hp
      rcases hm : mapLookup v s.vlans with _ | members
      · simp only [hm] at hp
        rcases mem_mapInsert_weak v (setAdd c []) s.vlans p hp with rfl | hpm
        · rcases (mem_setAdd x c []).mp hx with rfl | hfalse
          · exact absurd rfl hxc
          · cases hfalse
        · exact hnod p hpm x hx
      · simp only [hm] at hp
        rcases mem_mapInsert_weak v (setAdd c members) s.vlans p hp with
          rfl | hpm
        · rcases (mem_setAdd x c members).mp hx with rfl | hxm
          · exact absurd rfl hxc
          · exact hnod (v, members)
              (mapLookup_some_mem v members s.vlans hm) x hxm
        · exact hnod p hpm x hx

theorem goodState_unregister (s : VLANServer) (c : ClientID) (v : VLANID)
    (h : GoodState s) (hok : ∀ p ∈ s.vlans, p.1 ≠ v → c ∉ p.2) :
    GoodState (unregister_client s c v) := by
  obtain ⟨hnd, hnod⟩ := h
  have hvl : (unregister_client s c v).vlans
      = match mapLookup v s.vlans with
        | none => s.vlans
        | some members =>
            if c ∈ members then mapInsert v (setRemove c members) s.vlans
            else s.vlans := rfl
  constructor
  · show NodupKeys (unregister_client s c v).vlans
    rw [hvl]
    split
    · exact hnd
    · split
      · exact nodupKeys_mapInsert _ _ _ hnd
      · exact hnd
  · intro p hp x hx
    have key : x ≠ c ∧ (mapLookup x s.clients).isSome = true := by
      rw [hvl] at hp
      rcases hm : mapLookup v s.vlans with _ | members
      · simp only [hm] at hp
        obtain ⟨pk, pm⟩ := p
        have hpv : pk ≠ v := by
          rintro rfl
          exact mapLookup_none_not_mem pk s.vlans hm pm hp
        exact ⟨fun hxeq => hok (pk, pm) hp hpv (hxeq ▸ hx),
          hnod (pk, pm) hp x hx⟩
      · simp only [hm] at hp
        by_cases hmem : c ∈ members
        · rw [if_pos hmem] at hp
          rcases mem_mapInsert_of_nodup v (setRemove c members) s.vlans p
            hnd hp with heq | ⟨hpm, hpne⟩
          · subst heq
            have hx' := (mem_setRemove x c members).mp hx
            exact ⟨hx'.2,
              hnod (v, members) (mapLookup_some_mem v members s.vlans hm)
                x hx'.1⟩
          · exact ⟨fun hxeq => hok p hpm hpne (hxeq ▸ hx),
              hnod p hpm x hx⟩
        · rw [if_neg hmem] at hp
          obtain ⟨pk, pm⟩ := p
          by_cases hpv : pk = v
          · subst hpv
            have hlk := mem_mapLookup_of_nodup s.vlans pk pm hnd hp
            rw [hm] at hlk
            obtain rfl := Option.some.inj hlk
            exact ⟨fun hxeq => hmem (hxeq ▸ hx), hnod (pk, members) hp x hx⟩
          · exact ⟨fun hxeq => hok (pk, pm) hp hpv (hxeq ▸ hx),
              hnod (pk, pm) hp x hx⟩
    show (mapLookup x (unregister_client s c v).clients).isSome = true
    rw [unregister_clients_lookup_ne s c v x key.1]
    exact key.2

theorem goodState_foldl (ops : List Op) :
    ∀ s, GoodState s → Legal s ops →
      GoodState (ops.foldl applyOp s) := by
  induction ops with
  | nil =>
      intro s h _
      exact h
  | cons op rest ih =>
      intro s h hl
      obtain ⟨hok, hl⟩ := hl
      rw [List.foldl_cons]
      cases op with
      | reg c v conn => exact ih _ (goodState_register s c v conn h) hl
      | unreg c v => exact ih _ (goodState_unregister s c v h hok) hl

/-- C2 counterexample: from the empty maps, the two-operation sequence
`register_client("A","g1",0); unregister_client("A","g2")` — arbitrary
arguments, as the claim allows — leaves `"A"` in group `"g1"`'s
Directory set while its Registry entry has been deleted: the
no-dangling invariant does NOT hold after every finite sequence of
register/unregister operations with arbitrary arguments. -/
theorem C2_no_dangling_counterexample :
    ¬ NoDangling (runOps [Op.reg "A" "g1" 0, Op.unreg "A" "g2"]) := by
  decide

/-- C2 (amended): starting from empty Registry and Directory, after
every finite sequence of register/unregister operations in which each
`unregister_client(c, v)` runs only in states where `c` is not a member
of any group other than `v` (`register_client` calls are unrestricted,
re-registrations included), every ClientID present in any Directory
group set has a corresponding Registry entry.  The restriction is
forced by the counterexample: an unregister naming a different vlan
than the one holding the client deletes the Registry entry but leaves
the stale membership behind. -/
theorem C2_no_dangling_invariant (ops : List Op)
    (hl : Legal ⟨[], []⟩ ops) : NoDangling (runOps ops) :=
  (goodState_foldl ops ⟨[], []⟩
    ⟨List.nodup_nil, fun p hp => absurd hp (List.not_mem_nil p)⟩ hl).2

theorem C2_no_dangling_invariant_witness :
    NoDangling (runOps
      [Op.reg "A" "g" 0, Op.reg "B" "g" 1, Op.unreg "A" "g",
        Op.unreg "B" "g"]) :=
  C2_no_dangling_invariant
    [Op.reg "A" "g" 0, Op.reg "B" "g" 1, Op.unreg "A" "g",
      Op.unreg "B" "g"] (by decide)

/-! ### Connection handler -/

theorem broadcast_to_vlan_events (s : VLANServer) (vid : VLANID)
    (message : Payload) (sender : ClientID) (f : Conn → Bool) :
    ∀ e ∈ (broadcast_to_vlan s vid message sender f).2,
      ∃ c conn,
        e = Ev.sendOk c conn message ∨ e = Ev.sendFail c conn message := by
  cases hm : mapLookup vid s.vlans with
  | none =>
      rw [broadcast_to_vlan_none s vid message sender f hm]
      simp
  | some members =>
      rw [broadcast_to_vlan_some s vid message sender f members hm]
      intro e he
      exact broadcastSends_events s.clients sender f message members e he

/-- Every event emitted inside the read loop is a delivery attempt of
some broadcast: the loop itself performs no `unreg` and no `close`. -/
theorem clientLoop_events_sends (cid : ClientID) (vid : VLANID)
    (f : Conn → Bool) (reads : List ReadResult) :
    ∀ s, ∀ e ∈ (clientLoop s cid vid f reads).2.1,
      ∃ c conn p, e = Ev.sendOk c conn p ∨ e = Ev.sendFail c conn p := by
  induction reads with
  | nil =>
      intro s e he
      simp [clientLoop] at he
  | cons r rest ih =>
      intro s e he
      cases r with
      | closed => simp [clientLoop] at he
      | ioError => simp [clientLoop] at he
      | data p =>
          cases p with
          | bad => simp [clientLoop] at he
          | msg m =>
              simp only [clientLoop] at he
              rcases List.mem_append.mp he with h1 | h1
              · rcases broadcast_to_vlan_events s vid (Payload.msg m) cid
                  f e h1 with ⟨c, conn, h⟩
                exact ⟨c, conn, Payload.msg m, h⟩
              · exact ih _ e h1
          | reg c2 v2 =>
              simp only [clientLoop] at he
              rcases List.mem_append.mp he with h1 | h1
              · rcases broadcast_to_vlan_events s vid (Payload.reg c2 v2)
                  cid f e h1 with ⟨c, conn, h⟩
                exact ⟨c, conn, Payload.reg c2 v2, h⟩
              · exact ih _ e h1

/-- C5 (code bug): if the first payload read by `handle_client` is
malformed or absent — zero-length read, `recv` raising, `json.loads`
failing, or a decoded document without the registration fields — then,
as the claim says, no registration occurs (Registry and Directory are
untouched, no events are emitted); but the connection is NOT closed:
the `finally` block evaluates the never-assigned local `client_id` and
raises `UnboundLocalError` before `client_socket.close()` is reached,
so the handler dies by exception with the socket still open (outcome
`crashed`, and no `close` event in the empty trace). -/
theorem C5_malformed_registration_no_close (s : VLANServer) (conn : Conn)
    (rest : List ReadResult) (sendFails : Conn → Bool) (m : String) :
    handle_client s conn ReadResult.closed rest sendFails
        = (s, [], HandlerOutcome.crashed)
    ∧ handle_client s conn ReadResult.ioError rest sendFails
        = (s, [], HandlerOutcome.crashed)
    ∧ handle_client s conn (ReadResult.data Payload.bad) rest sendFails
        = (s, [], HandlerOutcome.crashed)
    ∧ handle_client s conn (ReadResult.data (Payload.msg m)) rest sendFails
        = (s, [], HandlerOutcome.crashed) :=
  ⟨rfl, rfl, rfl, rfl⟩

/-- C6: after a successful registration, for every way the read loop
exits (zero-length read on peer close, JSON decode failure, or any
other I/O exception — all the `some _` exits), the `finally` block
runs: the trace ends with exactly one `unreg client_id vlan_id`
followed by `close client_socket`, no `unreg` or `close` occurs
anywhere else, the final state is `unregister_client` applied once to
the loop's final state, and the handler finishes normally.  Peer-close
and protocol error take this same cleanup path. -/
theorem C6_cleanup_exactly_once (s : VLANServer) (client_socket : Conn)
    (client_id : ClientID) (vlan_id : VLANID) (rest : List ReadResult)
    (sendFails : Conn → Bool)
    (hexit :
      (clientLoop (register_client s client_id vlan_id client_socket)
        client_id vlan_id sendFails rest).2.2 ≠ none) :
    ∃ pre,
      (handle_client s client_socket
          (ReadResult.data (Payload.reg client_id vlan_id)) rest
          sendFails).2.1
        = pre ++ [Ev.unreg client_id vlan_id, Ev.close client_socket]
      ∧ (∀ c v, Ev.unreg c v ∉ pre)
      ∧ (∀ k, Ev.close k ∉ pre)
      ∧ (handle_client s client_socket
          (ReadResult.data (Payload.reg client_id vlan_id)) rest
          sendFails).2.2 = HandlerOutcome.finished
      ∧ (handle_client s client_socket
          (ReadResult.data (Payload.reg client_id vlan_id)) rest
          sendFails).1
        = unregister_client
            (clientLoop (register_client s client_id vlan_id client_socket)
              client_id vlan_id sendFails rest).1 client_id vlan_id := by
  obtain ⟨ex, hex⟩ := Option.ne_none_iff_exists'.mp hexit
  have heq : handle_client s client_socket
      (ReadResult.data (Payload.reg client_id vlan_id)) rest sendFails
      = (unregister_client
          (clientLoop (register_client s client_id vlan_id client_socket)
            client_id vlan_id sendFails rest).1 client_id vlan_id,
        (clientLoop (register_client s client_id vlan_id client_socket)
          client_id vlan_id sendFails rest).2.1
          ++ [Ev.unreg client_id vlan_id, Ev.close client_socket],
        HandlerOutcome.finished) := by
    simp only [handle_client, hex]
  refine ⟨(clientLoop (register_client s client_id vlan_id client_socket)
      client_id vlan_id sendFails rest).2.1, ?_, ?_, ?_, ?_, ?_⟩
  · rw [heq]
  · intro c v hc
    rcases clientLoop_events_sends client_id vlan_id sendFails rest _ _ hc
      with ⟨a, b, p, h | h⟩ <;> cases h
  · intro k hk
    rcases clientLoop_events_sends client_id vlan_id sendFails rest _ _ hk
      with ⟨a, b, p, h | h⟩ <;> cases h
  · rw [heq]
  · rw [heq]

theorem C6_cleanup_exactly_once_witness :
    (handle_client ⟨[], []⟩ 7 (ReadResult.data (Payload.reg "A" "g"))
        [ReadResult.closed] (fun _ => false)).2.2
      = HandlerOutcome.finished
    ∧ (handle_client ⟨[], []⟩ 7 (ReadResult.data (Payload.reg "A" "g"))
        [ReadResult.closed] (fun _ => false)).2.1
      = [] ++ [Ev.unreg "A" "g", Ev.close 7] := by
  obtain ⟨pre, h1, h2, h3, h4, h5⟩ :=
    C6_cleanup_exactly_once ⟨[], []⟩ 7 "A" "g" [ReadResult.closed]
      (fun _ => false) (by decide)
  have hpre : pre = [] := by
    have := h1
    rw [show (handle_client ⟨[], []⟩ 7
        (ReadResult.data (Payload.reg "A" "g")) [ReadResult.closed]
        (fun _ => false)).2.1 = [Ev.unreg "A" "g", Ev.close 7] from rfl]
      at this
    cases pre with
    | nil => rfl
    | cons a l =>
        have hlen := congrArg List.length this
        simp at hlen
  subst hpre
  exact ⟨h4, h1⟩
